import Mathlib

/-!
Verification of the bounded quality-gated reflection loop in
`Gaurav_Kumar/Group_2_project` (LangGraph research pipeline), together with
the agents that feed it (decomposer, retriever, fact-checker) and the robust
JSON extraction in `utils/llm_client.py`.

Modelling conventions:
* the `ResearchState` TypedDict becomes a structure; floats that only ever
  enter comparisons (quality scores, thresholds) are modelled as rationals;
* each LangGraph node returns a partial update (a structure whose optional
  `errors` field models presence/absence of the `errors` key in the returned
  dict); LangGraph's merge for a plain TypedDict is last-write-wins per key;
* external capabilities (the LLM `chat_json` call, the Tavily search) are
  parameters of type `Except String _`: `.error e` models a raised exception
  with message `e`, `.ok v` models a successful, already-parsed response;
* the graph loop is executed with explicit fuel; theorems show the fuel is
  irrelevant once it is at least `max_iterations`.
-/

namespace Group2

/-! ### Configuration (`config.py`, class `Settings`) -/

/-- Source: `Settings.MAX_ITERATIONS` (max reflection loops). -/
def MAX_ITERATIONS : Nat := 2

/-- Source: `Settings.QUALITY_THRESHOLD` (min quality to accept, 0-100). -/
def QUALITY_THRESHOLD : ℚ := 65

/-- Source: `Settings.MAX_SUB_QUERIES` (max decomposed sub-queries). -/
def MAX_SUB_QUERIES : Nat := 5

/-- Source: `Settings.MAX_SEARCH_RESULTS`. -/
def MAX_SEARCH_RESULTS : Nat := 6

/-! ### Data model (`orchestrator/state.py` and agent dataclasses) -/

/-- Source: `agents/retriever_agent.py`, dataclass `SourceDocument`. -/
structure SourceDocument where
  title : String
  url : String
  content : String
  source_type : String := "other"
  relevance_score : ℚ := 0
  domain : String := ""
  sub_query : String := ""
deriving DecidableEq

/-- One entry of `analysis["findings"]` as read by the fact-checker
(`f.get("claim", "")`, `f.get("source_indices", [])`). -/
structure Finding where
  claim : String := ""
  source_indices : List Nat := []
deriving DecidableEq

/-- The `analysis` dict, restricted to the key the downstream agents read. -/
structure Analysis where
  findings : List Finding := []
deriving DecidableEq

/-- Source: `agents/fact_checker_agent.py`, dataclass `VerifiedClaim` (as a dict). -/
structure VerifiedClaim where
  claim : String
  confidence_score : ℚ := 50
  status : String := "unverified"
  supporting_sources : List Nat := []
  contradicting_sources : List Nat := []
  reasoning : String := ""
deriving DecidableEq

/-- Source: `agents/fact_checker_agent.py`, dataclass `FactCheckResult` (as a dict). -/
structure FactCheckResult where
  verified_claims : List VerifiedClaim := []
  overall_reliability_score : ℚ := 50
  warnings : List String := []
  contradiction_details : List String := []
deriving DecidableEq

/-- The `insights` dict (keys written by `InsightAgent.run`). -/
structure Insights where
  hypotheses : List String := []
  trends : List String := []
  key_patterns : List String := []
  implications : List String := []
  further_questions : List String := []
deriving DecidableEq

/-- The `report` dict, restricted to the key read back by the decomposer on
reflection loops (`report.get("follow_up_queries", [])`). -/
structure Report where
  follow_up_queries : List String := []
deriving DecidableEq

/-- Source: `orchestrator/state.py`, `ResearchState` TypedDict.  The debug-only keys
`agent_outputs` and `usage_stats` carry no control flow and are omitted. -/
structure ResearchState where
  original_query : String := ""
  sub_queries : List String := []
  sources : List SourceDocument := []
  analysis : Analysis := {}
  fact_check : FactCheckResult := {}
  insights : Insights := {}
  report : Report := {}
  iteration : Nat := 0
  max_iterations : Nat := MAX_ITERATIONS
  quality_score : ℚ := 0
  status : String := ""
  errors : List String := []
deriving DecidableEq

/-! ### Quality gate and iteration counter (`orchestrator/graph.py`) -/

/-- Source: `orchestrator/graph.py`, `quality_gate` (lines 154-190).  `threshold`
stands for `settings.QUALITY_THRESHOLD`. -/
def quality_gate (threshold : ℚ) (state : ResearchState) : String :=
  let quality := state.quality_score
  let iteration := state.iteration
  let max_iter := state.max_iterations
  if quality ≥ threshold then "accept"
  else if iteration + 1 ≥ max_iter then "accept"
  else "refine"

/-- Source: `orchestrator/graph.py`, `increment_iteration` (lines 194-196): the only
node that writes the `iteration` key, merged into the state by LangGraph. -/
def increment_iteration (state : ResearchState) : ResearchState :=
  { state with iteration := state.iteration + 1 }

/-! ### Node updates (the dicts returned by each agent's `run`)

Each LangGraph node returns a dict holding exactly the keys listed below
(read off the `return` statements of the corresponding agent); LangGraph
merges it into the state key-by-key (last write wins).  An `errors` field of
`none` models a returned dict without the `errors` key. -/

/-- Keys returned by `DecomposerAgent.run`. -/
structure DecomposerUpdate where
  sub_queries : List String
  status : String
  errors : Option (List String) := none
deriving DecidableEq

/-- Keys returned by `RetrieverAgent.run`. -/
structure RetrieverUpdate where
  sources : List SourceDocument
  status : String
deriving DecidableEq

/-- Keys returned by `AnalysisAgent.run`. -/
structure AnalyzerUpdate where
  analysis : Analysis
  status : String
  errors : Option (List String) := none
deriving DecidableEq

/-- Keys returned by `FactCheckerAgent.run`. -/
structure FactCheckUpdate where
  fact_check : FactCheckResult
  status : String
  errors : Option (List String) := none
deriving DecidableEq

/-- Keys returned by `InsightAgent.run`. -/
structure InsightUpdate where
  insights : Insights
  status : String
  errors : Option (List String) := none
deriving DecidableEq

/-- Keys returned by `ReportAgent.run`. -/
structure ReportUpdate where
  report : Report
  quality_score : ℚ
  status : String
  errors : Option (List String) := none
deriving DecidableEq

/-- LangGraph merge of a decomposer update into the state. -/
def applyDecomposer (s : ResearchState) (u : DecomposerUpdate) : ResearchState :=
  { s with sub_queries := u.sub_queries, status := u.status,
           errors := u.errors.getD s.errors }

/-- LangGraph merge of a retriever update into the state. -/
def applyRetriever (s : ResearchState) (u : RetrieverUpdate) : ResearchState :=
  { s with sources := u.sources, status := u.status }

/-- LangGraph merge of an analyzer update into the state. -/
def applyAnalyzer (s : ResearchState) (u : AnalyzerUpdate) : ResearchState :=
  { s with analysis := u.analysis, status := u.status,
           errors := u.errors.getD s.errors }

/-- LangGraph merge of a fact-check update into the state. -/
def applyFactChecker (s : ResearchState) (u : FactCheckUpdate) : ResearchState :=
  { s with fact_check := u.fact_check, status := u.status,
           errors := u.errors.getD s.errors }

/-- LangGraph merge of an insight update into the state. -/
def applyInsight (s : ResearchState) (u : InsightUpdate) : ResearchState :=
  { s with insights := u.insights, status := u.status,
           errors := u.errors.getD s.errors }

/-- LangGraph merge of a report update into the state. -/
def applyReport (s : ResearchState) (u : ReportUpdate) : ResearchState :=
  { s with report := u.report, quality_score := u.quality_score,
           status := u.status, errors := u.errors.getD s.errors }

/-- The six pipeline node functions of `create_research_graph`.  Their
behaviour (LLM and web-search driven) is opaque, so each node is an
arbitrary function of the state into its update type; the update types
alone pin down which state keys a node may write (in particular none of
them can write `iteration` or `max_iterations`). -/
structure PipelineNodes where
  decompose : ResearchState → DecomposerUpdate
  retrieve : ResearchState → RetrieverUpdate
  analyze : ResearchState → AnalyzerUpdate
  fact_check : ResearchState → FactCheckUpdate
  generate_insights : ResearchState → InsightUpdate
  build_report : ResearchState → ReportUpdate

/-- One pass through the linear edges
decompose → retrieve → analyze → fact_check → generate_insights →
build_report, each node seeing the state accumulated by its predecessors. -/
def pipelinePass (nodes : PipelineNodes) (s : ResearchState) : ResearchState :=
  let s1 := applyDecomposer s (nodes.decompose s)
  let s2 := applyRetriever s1 (nodes.retrieve s1)
  let s3 := applyAnalyzer s2 (nodes.analyze s2)
  let s4 := applyFactChecker s3 (nodes.fact_check s3)
  let s5 := applyInsight s4 (nodes.generate_insights s4)
  applyReport s5 (nodes.build_report s5)

/-- The compiled graph's execution loop: run one pipeline pass, route on
`quality_gate`; on "refine" apply `increment_iteration` and loop back to
`decompose`, on "accept" stop.  `fuel` bounds the recursion (LangGraph
itself enforces a recursion limit); the returned `Nat` counts executed
pipeline passes.  `none` means the fuel ran out. -/
def graphRun (nodes : PipelineNodes) (threshold : ℚ) :
    Nat → ResearchState → Option (ResearchState × Nat)
  | 0, _ => none
  | fuel + 1, s =>
    let s' := pipelinePass nodes s
    if quality_gate threshold s' = "refine" then
      match graphRun nodes threshold fuel (increment_iteration s') with
      | none => none
      | some (r, n) => some (r, n + 1)
    else
      some (s', 1)

/-- Source: `max_iterations or settings.MAX_ITERATIONS` in `run_research`: Python's
`or` falls back on `None` and on the falsy `0`. -/
def effective_max_iterations (max_iterations : Option Nat) : Nat :=
  match max_iterations with
  | none => MAX_ITERATIONS
  | some 0 => MAX_ITERATIONS
  | some k => k

/-- The `initial_state` dict built by `run_research` (lines 268-283). -/
def initial_state (query : String) (max_iterations : Option Nat) : ResearchState :=
  { original_query := query
    sub_queries := []
    sources := []
    analysis := {}
    fact_check := {}
    insights := {}
    report := {}
    iteration := 0
    max_iterations := effective_max_iterations max_iterations
    quality_score := 0
    status := "Starting research..."
    errors := [] }

/-- Source: `run_research` (lines 240-308): build the initial state, invoke the
graph inside try/except; on any exception return the initial state with the
error message recorded in `status` and `errors`.  `invoke` stands for
`graph.invoke` and is a parameter so the exception branch can be analysed
for an arbitrary failure.  (The `usage_stats` attachment is debug-only and
omitted.) -/
def run_research (query : String) (max_iterations : Option Nat)
    (invoke : ResearchState → Except String ResearchState) : ResearchState :=
  let init := initial_state query max_iterations
  match invoke init with
  | Except.ok result => result
  | Except.error e =>
      { init with status := "Pipeline error: " ++ e, errors := [e] }

/-- A concrete instantiation of the six pipeline nodes (used to exercise the
engine theorems on explicit runs): every report pass scores 40. -/
def constNodes : PipelineNodes where
  decompose := fun s => { sub_queries := [s.original_query], status := "d" }
  retrieve := fun s => { sources := s.sources, status := "r" }
  analyze := fun _ => { analysis := {}, status := "a" }
  fact_check := fun _ => { fact_check := {}, status := "f" }
  generate_insights := fun _ => { insights := {}, status := "i" }
  build_report := fun _ => { report := {}, quality_score := 40, status := "b" }

/-! ### Retriever agent (`agents/retriever_agent.py`)

`search q` stands for `self._search(q)` (a Tavily call): `.error` models a
raised exception, `.ok srcs` the list of `SourceDocument`s built from the
response.  `categorizer` stands for the parsed `chat_json` result of
`_categorize_sources` (`result.get("sources", [])`). -/

/-- Source: `pat in hay` on Python strings. -/
def strContains (hay pat : String) : Bool :=
  decide (pat.toList <:+: hay.toList)

/-- One item of the categorizer LLM's `sources` list:
`item.get("index", -1)` and `item.get("source_type", "other")`. -/
structure CategorizedItem where
  index : Int := -1
  source_type : String := "other"
deriving DecidableEq

namespace RetrieverAgent

/-- Source: `RetrieverAgent._fallback_categorize`. -/
def fallback_categorize (domain : String) : String :=
  let domain := domain.toLower
  if [".edu", "arxiv", "scholar", "pubmed", "ncbi"].any (fun x => strContains domain x) then
    "academic"
  else if [".gov", "government"].any (fun x => strContains domain x) then
    "government"
  else if ["reuters", "bbc", "nytimes", "cnn", "guardian", "apnews"].any
      (fun x => strContains domain x) then
    "news"
  else if ["wikipedia", "britannica"].any (fun x => strContains domain x) then
    "encyclopedia"
  else if ["medium.com", "substack", "wordpress", "blogspot"].any
      (fun x => strContains domain x) then
    "blog"
  else "other"

/-- Source: `sources[idx].source_type = stype` at a in-range index. -/
def updateAt : List SourceDocument → Nat → String → List SourceDocument
  | [], _, _ => []
  | s :: rest, 0, stype => { s with source_type := stype } :: rest
  | s :: rest, n + 1, stype => s :: updateAt rest n stype

/-- The guarded in-place update `if 0 <= idx < len(sources)` of
`_categorize_sources`. -/
def setSourceType (sources : List SourceDocument) (idx : Int) (stype : String) :
    List SourceDocument :=
  if 0 ≤ idx ∧ idx < (sources.length : Int) then updateAt sources idx.toNat stype
  else sources

/-- Source: `RetrieverAgent._categorize_sources`: on LLM success apply the returned
`(index, source_type)` items; on failure fall back to rule-based
categorization.  Either way only `source_type` fields change. -/
def categorize_sources (llm : Except String (List CategorizedItem))
    (sources : List SourceDocument) : List SourceDocument :=
  match llm with
  | Except.ok items =>
      items.foldl (fun srcs item => setSourceType srcs item.index item.source_type) sources
  | Except.error _ =>
      sources.map (fun s => { s with source_type := fallback_categorize s.domain })

/-- The inner `for src in results` loop of `RetrieverAgent.run`: keep a
source only if its url is not yet in `existing_urls`, extending the set. -/
def dedupInto : List SourceDocument → List String → List SourceDocument →
    (List String × List SourceDocument)
  | [], urls, acc => (urls, acc)
  | src :: rest, urls, acc =>
      if src.url ∈ urls then dedupInto rest urls acc
      else dedupInto rest (src.url :: urls) (acc ++ [src])

/-- The outer `for query in sub_queries` loop of `RetrieverAgent.run`; a
failed search is skipped (`except: continue`). -/
def collectSources (search : String → Except String (List SourceDocument)) :
    List String → List String → List SourceDocument →
    (List String × List SourceDocument)
  | [], urls, acc => (urls, acc)
  | q :: qs, urls, acc =>
      match search q with
      | Except.error _ => collectSources search qs urls acc
      | Except.ok results =>
          let p := dedupInto results urls acc
          collectSources search qs p.1 p.2

/-- Source: `RetrieverAgent.run` (lines 74-113). -/
def run (search : String → Except String (List SourceDocument))
    (categorizer : Except String (List CategorizedItem))
    (state : ResearchState) : RetrieverUpdate :=
  let sub_queries := state.sub_queries
  let existing_urls := state.sources.map (fun s => s.url)
  let p := collectSources search sub_queries existing_urls []
  let all_sources := p.2
  let all_sources :=
    if all_sources.isEmpty then all_sources
    else categorize_sources categorizer all_sources
  let existing_sources := state.sources
  { sources := existing_sources ++ all_sources,
    status := "Retrieved " ++ toString all_sources.length ++ " new sources (" ++
      toString (existing_sources.length + all_sources.length) ++ " total)" }

end RetrieverAgent

/-! ### Decomposer agent (`agents/decomposer_agent.py`)

`llm` stands for the parsed `chat_json` response: `.error` a raised
exception, `.ok (some qs)` a dict with a `sub_queries` key, `.ok none` a
dict without one (so `result.get("sub_queries", [query])` falls back). -/

namespace DecomposerAgent

/-- Source: `DecomposerAgent.run` (lines 60-116). -/
def run (llm : Except String (Option (List String))) (state : ResearchState) :
    DecomposerUpdate :=
  let query := state.original_query
  match llm with
  | Except.ok result =>
      let sub_queries := result.getD [query]
      let sub_queries :=
        if MAX_SUB_QUERIES < sub_queries.length then sub_queries.take MAX_SUB_QUERIES
        else sub_queries
      let sub_queries := if sub_queries.isEmpty then [query] else sub_queries
      { sub_queries := sub_queries,
        status := "Decomposed into " ++ toString sub_queries.length ++ " sub-queries" }
  | Except.error e =>
      { sub_queries := [query],
        status := "Decomposition fallback: " ++ e.take 100,
        errors := some (state.errors ++ ["Decomposer: " ++ e]) }

end DecomposerAgent

/-! ### Fact-checker agent (`agents/fact_checker_agent.py`) -/

/-- The parsed `chat_json` response of the fact-checker; `none` fields model
missing keys, resolved by the `result.get(key, default)` calls. -/
structure FactCheckLLMResult where
  verified_claims : Option (List VerifiedClaim) := none
  overall_reliability_score : Option ℚ := none
  warnings : Option (List String) := none
  contradiction_details : Option (List String) := none
deriving DecidableEq

/-- A state with one analysis finding (used to exercise the degraded-path
theorem on an explicit input). -/
def sampleFindingState : ResearchState :=
  { analysis := { findings := [{ claim := "c", source_indices := [0] }] } }

namespace FactCheckerAgent

/-- One fallback claim of the degraded path (lines 137-147). -/
def fallback_claim (f : Finding) : VerifiedClaim :=
  { claim := f.claim
    confidence_score := 50
    status := "unverified"
    supporting_sources := f.source_indices
    contradicting_sources := []
    reasoning := "Fact-check unavailable — treating as unverified" }

/-- Source: `FactCheckerAgent.run` (lines 64-157). -/
def run (llm : Except String FactCheckLLMResult) (state : ResearchState) :
    FactCheckUpdate :=
  let findings := state.analysis.findings
  if findings.isEmpty then
    { fact_check :=
        { verified_claims := []
          overall_reliability_score := 0
          warnings := ["No findings available for fact-checking"]
          contradiction_details := [] }
      status := "Fact-check: No findings to verify" }
  else
    match llm with
    | Except.ok result =>
        let fact_check : FactCheckResult :=
          { verified_claims := result.verified_claims.getD []
            overall_reliability_score := result.overall_reliability_score.getD 50
            warnings := result.warnings.getD []
            contradiction_details := result.contradiction_details.getD [] }
        let verified := (fact_check.verified_claims.filter
          (fun c => c.status == "verified")).length
        let disputed := (fact_check.verified_claims.filter
          (fun c => c.status == "disputed")).length
        { fact_check := fact_check
          status := "Fact-checked: " ++ toString verified ++ " verified, " ++
            toString disputed ++ " disputed (reliability: " ++
            toString fact_check.overall_reliability_score ++ "%)" }
    | Except.error e =>
        { fact_check :=
            { verified_claims := findings.map fallback_claim
              overall_reliability_score := 40
              warnings := ["Fact-checking failed (" ++ e.take 80 ++
                "). All claims marked as unverified."]
              contradiction_details := [] }
          status := "Fact-check fallback: " ++ e.take 100
          errors := some (state.errors ++ ["FactChecker: " ++ e]) }

end FactCheckerAgent

/-! ### Robust JSON extraction (`utils/llm_client.py`, `LLMClient._parse_json`)

The recognizer below mirrors Python's `json.loads` acceptance (strict mode:
the RFC grammar plus the constants `NaN`/`Infinity`/`-Infinity`, no
unescaped control characters in strings, no trailing data).  Only the
shape of the parsed document matters to `_parse_json`, so the recognizer
reports the top-level kind instead of building a value. -/

namespace LLMClient

/-- Whitespace skipped by the `json` scanner: space, tab, newline, CR. -/
def isJsonWs (c : Char) : Bool :=
  c == ' ' || c == '\t' || c == '\n' || c == '\r'

/-- Drop leading JSON whitespace. -/
def skipWs (cs : List Char) : List Char := cs.dropWhile isJsonWs

/-- ASCII whitespace of Python's `str.strip` and of the regex class `\s`
(space, tab, newline, CR, vertical tab, form feed). -/
def isPyWs (c : Char) : Bool :=
  c == ' ' || c == '\t' || c == '\n' || c == '\r' ||
    c == Char.ofNat 11 || c == Char.ofNat 12

/-- Python `text.strip()` (ASCII whitespace). -/
def pyStrip (s : String) : String :=
  String.mk (((s.toList.dropWhile isPyWs).reverse.dropWhile isPyWs).reverse)

/-- Hexadecimal digit test (for `\uXXXX` escapes). -/
def isHex (c : Char) : Bool :=
  c.isDigit || ('a' <= c && c <= 'f') || ('A' <= c && c <= 'F')

/-- Recognize the remainder of a JSON string after its opening quote: the
short escapes, `\uXXXX`, and (strict mode) no unescaped control
characters. -/
def parseStringRest : List Char → Option (List Char)
  | [] => none
  | '"' :: rest => some rest
  | '\\' :: 'u' :: a :: b :: c :: d :: rest =>
      if isHex a && isHex b && isHex c && isHex d then
        parseStringRest rest
      else none
  | '\\' :: e :: rest =>
      if e == '"' || e == '\\' || e == '/' || e == 'b' || e == 'f' ||
          e == 'n' || e == 'r' || e == 't' then
        parseStringRest rest
      else none
  | c :: rest => if c.toNat < 32 then none else parseStringRest rest

/-- Match an exact literal tail (for `true`, `false`, `null`, `NaN`,
`Infinity`). -/
def expectLit : List Char → List Char → Option (List Char)
  | [], cs => some cs
  | _ :: _, [] => none
  | p :: ps, c :: cs => if c == p then expectLit ps cs else none

/-- Consume a fraction part `.digits` if well-formed, else leave the input
unchanged (the scanner's NUMBER_RE treats it as optional). -/
def parseFrac (cs : List Char) : List Char :=
  match cs with
  | '.' :: c :: rest => if c.isDigit then rest.dropWhile Char.isDigit else cs
  | _ => cs

/-- Consume an exponent part `[eE][+-]?digits` if well-formed, else leave
the input unchanged. -/
def parseExp (cs : List Char) : List Char :=
  match cs with
  | e :: rest =>
    if e == 'e' || e == 'E' then
      let rest2 := match rest with
        | s :: r => if s == '+' || s == '-' then r else rest
        | [] => rest
      match rest2 with
      | c :: r => if c.isDigit then r.dropWhile Char.isDigit else cs
      | [] => cs
    else cs
  | [] => cs

/-- NUMBER_RE after the optional minus: `0` or a nonzero digit run, then
optional fraction and exponent. -/
def parseNumberTail : List Char → Option (List Char)
  | '0' :: rest => some (parseExp (parseFrac rest))
  | c :: rest =>
      if c.isDigit then some (parseExp (parseFrac (rest.dropWhile Char.isDigit)))
      else none
  | [] => none

/-- The recognizer's mutually recursive states, collapsed into one mode
tag so the recursion is plainly structural on the fuel. -/
inductive PMode
  | value     -- expecting a JSON value
  | members   -- just after `\x7b`
  | member    -- just after an object key's opening quote
  | elements  -- just after `[`
  | element   -- expecting an element then `,` or `]`
deriving DecidableEq

/-- Recognize one production of the `json.loads` grammar, returning the
unconsumed remainder.  Every recursive call decrements the fuel; a fuel
proportional to the input length (each call chain consumes input) makes
the 0-fuel case unreachable. -/
def parseJ : Nat → PMode → List Char → Option (List Char)
  | 0, _, _ => none
  | fuel + 1, PMode.value, cs =>
    (match skipWs cs with
      | '\x7b' :: rest => parseJ fuel PMode.members rest
      | '[' :: rest => parseJ fuel PMode.elements rest
      | '"' :: rest => parseStringRest rest
      | 't' :: rest => expectLit ['r', 'u', 'e'] rest
      | 'f' :: rest => expectLit ['a', 'l', 's', 'e'] rest
      | 'n' :: rest => expectLit ['u', 'l', 'l'] rest
      | 'N' :: rest => expectLit ['a', 'N'] rest
      | 'I' :: rest => expectLit ['n', 'f', 'i', 'n', 'i', 't', 'y'] rest
      | '-' :: 'I' :: rest => expectLit ['n', 'f', 'i', 'n', 'i', 't', 'y'] rest
      | '-' :: rest => parseNumberTail rest
      | cs' =>
        match cs' with
        | c :: _ => if c.isDigit then parseNumberTail cs' else none
        | [] => none)
  | fuel + 1, PMode.members, cs =>
    (match skipWs cs with
      | '\x7d' :: rest => some rest
      | '"' :: rest => parseJ fuel PMode.member rest
      | _ => none)
  | fuel + 1, PMode.member, cs =>
    (match parseStringRest cs with
      | none => none
      | some rest =>
        match skipWs rest with
        | ':' :: rest2 =>
          (match parseJ fuel PMode.value rest2 with
            | none => none
            | some rest3 =>
              match skipWs rest3 with
              | '\x7d' :: rest4 => some rest4
              | ',' :: rest4 =>
                (match skipWs rest4 with
                  | '"' :: rest5 => parseJ fuel PMode.member rest5
                  | _ => none)
              | _ => none)
        | _ => none)
  | fuel + 1, PMode.elements, cs =>
    (match skipWs cs with
      | ']' :: rest => some rest
      | _ => parseJ fuel PMode.element cs)
  | fuel + 1, PMode.element, cs =>
    (match parseJ fuel PMode.value cs with
      | none => none
      | some rest =>
        match skipWs rest with
        | ']' :: rest2 => some rest2
        | ',' :: rest2 => parseJ fuel PMode.element rest2
        | _ => none)

/-- Top-level shape of a parsed JSON document. -/
inductive JKind
  | obj
  | arr
  | other
deriving DecidableEq

/-- Acceptance of `json.loads`: one value, surrounding whitespace allowed,
no trailing data; reports the document's top-level kind. -/
def loadsKind (s : String) : Option JKind :=
  let cs := s.toList
  let kind := match skipWs cs with
    | '\x7b' :: _ => JKind.obj
    | '[' :: _ => JKind.arr
    | _ => JKind.other
  match parseJ (8 * (cs.length + 1)) PMode.value cs with
  | none => none
  | some rest => if (skipWs rest).isEmpty then some kind else none

/-- One left-to-right scan of `re.sub` with the fence pattern: at a
triple-backtick, drop it with an optional `json` tag and any following
regex whitespace (the greedy `\s*` subsumes the trailing `\n?`);
otherwise keep one character.  The fuel (initially the input length) only
serves termination; every step consumes at least one character. -/
def stripFences : Nat → List Char → List Char
  | 0, cs => cs
  | fuel + 1, cs =>
    match cs with
    | '`' :: '`' :: '`' :: rest =>
      let rest2 := match rest with
        | 'j' :: 's' :: 'o' :: 'n' :: r => r
        | _ => rest
      stripFences fuel (rest2.dropWhile isPyWs)
    | c :: rest => c :: stripFences fuel rest
    | [] => []

/-- Greedy DOTALL search for `openC .* closeC`: the match (if any) runs
from the first opening delimiter to the last closing delimiter after it. -/
def extractDelim (openC closeC : Char) (cs : List Char) : Option (List Char) :=
  match cs.findIdx? (fun c => c == openC), cs.reverse.findIdx? (fun c => c == closeC) with
  | some i, some jr =>
    let j := cs.length - 1 - jr
    if i < j then some ((cs.drop i).take (j - i + 1)) else none
  | _, _ => none

/-- Shape of a successful `_parse_json` return: either the parsed value
itself (`raw`, a dict exactly when the value is an object) or the wrapper
dict built around a non-dict value under the `items` key. -/
inductive ParsedReturn
  | raw (k : JKind)
  | items (k : JKind)
deriving DecidableEq

/-- Python `result if isinstance(result, dict) else` wrapping of a parsed
value under the `items` key. -/
def wrapResult (k : JKind) : ParsedReturn :=
  match k with
  | JKind.obj => ParsedReturn.raw JKind.obj
  | k => ParsedReturn.items k

/-- Steps 3-4 of `_parse_json`: parse a brace-delimited substring of the
fence-cleaned text (returned unwrapped), else a bracket-delimited one
(wrapped under `items`). -/
def parseExtracted (cleaned : List Char) : Option ParsedReturn :=
  let step4 : Option ParsedReturn :=
    match extractDelim '[' ']' cleaned with
    | some sub =>
      (match loadsKind (String.mk sub) with
        | some k => some (ParsedReturn.items k)
        | none => none)
    | none => none
  match extractDelim '\x7b' '\x7d' cleaned with
  | some sub =>
    (match loadsKind (String.mk sub) with
      | some k => some (ParsedReturn.raw k)
      | none => step4)
  | none => step4

/-- Source: `LLMClient._parse_json` (lines 183-240): strip, direct parse,
parse after removing markdown code fences, then brace- and
bracket-extraction; `none` models the final `raise ValueError`. -/
def parse_json (text : String) : Option ParsedReturn :=
  let text := pyStrip text
  match loadsKind text with
  | some k => some (wrapResult k)
  | none =>
    let cleaned := pyStrip (String.mk (stripFences text.toList.length text.toList))
    match loadsKind cleaned with
    | some k => some (wrapResult k)
    | none => parseExtracted cleaned.toList

/-- The spec's notion of recoverability, read literally: a JSON OBJECT OR
ARRAY can be recovered by direct parse, by parse after stripping fences, or
by brace or bracket substring extraction. -/
def objArrRecoverable (text : String) : Bool :=
  let text := pyStrip text
  let cleaned := pyStrip (String.mk (stripFences text.toList.length text.toList))
  (loadsKind text == some JKind.obj || loadsKind text == some JKind.arr)
  || (loadsKind cleaned == some JKind.obj || loadsKind cleaned == some JKind.arr)
  || (match extractDelim '\x7b' '\x7d' cleaned.toList with
      | some sub => (loadsKind (String.mk sub)).isSome
      | none => false)
  || (match extractDelim '[' ']' cleaned.toList with
      | some sub => (loadsKind (String.mk sub)).isSome
      | none => false)

/-- Amended recoverability: any JSON value (object, array or scalar)
recovered by direct or fence-stripped parse counts — non-objects are
wrapped, not rejected — plus the two extraction fallbacks. -/
def jsonRecoverable (text : String) : Bool :=
  let text := pyStrip text
  let cleaned := pyStrip (String.mk (stripFences text.toList.length text.toList))
  (loadsKind text).isSome
  || (loadsKind cleaned).isSome
  || (match extractDelim '\x7b' '\x7d' cleaned.toList with
      | some sub => (loadsKind (String.mk sub)).isSome
      | none => false)
  || (match extractDelim '[' ']' cleaned.toList with
      | some sub => (loadsKind (String.mk sub)).isSome
      | none => false)

end LLMClient

/-! ### Basic lemmas about the gate and the loop -/

lemma quality_gate_accept_iff (threshold : ℚ) (s : ResearchState) :
    quality_gate threshold s = "accept" ↔
      threshold ≤ s.quality_score ∨ s.max_iterations ≤ s.iteration + 1 := by
  unfold quality_gate
  dsimp only
  split_ifs with h1 h2 <;> simp_all [ge_iff_le, not_le]

lemma quality_gate_refine_iff (threshold : ℚ) (s : ResearchState) :
    quality_gate threshold s = "refine" ↔
      s.quality_score < threshold ∧ s.iteration + 1 < s.max_iterations := by
  unfold quality_gate
  dsimp only
  split_ifs with h1 h2 <;> simp_all [ge_iff_le, not_le]

lemma quality_gate_accept_of_ne_refine (threshold : ℚ) (s : ResearchState)
    (h : quality_gate threshold s ≠ "refine") :
    quality_gate threshold s = "accept" := by
  unfold quality_gate at *
  dsimp only at *
  split_ifs at * <;> simp_all

lemma pipelinePass_iteration (nodes : PipelineNodes) (s : ResearchState) :
    (pipelinePass nodes s).iteration = s.iteration := rfl

lemma pipelinePass_max_iterations (nodes : PipelineNodes) (s : ResearchState) :
    (pipelinePass nodes s).max_iterations = s.max_iterations := rfl

lemma pipelinePass_original_query (nodes : PipelineNodes) (s : ResearchState) :
    (pipelinePass nodes s).original_query = s.original_query := rfl

/-- Totality and pass-count bound for the loop: as soon as the fuel covers
`max_iterations - iteration`, the loop returns, executes at least one and at
most `max(1, max_iterations - iteration)` passes, increments `iteration`
once per refine decision, and ends on an accepting gate. -/
lemma graphRun_total (nodes : PipelineNodes) (threshold : ℚ) :
    ∀ fuel s, 1 ≤ fuel → s.max_iterations ≤ s.iteration + fuel →
    ∃ r n, graphRun nodes threshold fuel s = some (r, n)
      ∧ 1 ≤ n
      ∧ r.iteration + 1 = s.iteration + n
      ∧ (n = 1 ∨ s.iteration + n ≤ s.max_iterations)
      ∧ r.max_iterations = s.max_iterations
      ∧ r.original_query = s.original_query
      ∧ quality_gate threshold r = "accept" := by
  intro fuel
  induction fuel with
  | zero => intro s h1 _; omega
  | succ f ih =>
    intro s _ hmax
    by_cases hg : quality_gate threshold (pipelinePass nodes s) = "refine"
    · have hrf := (quality_gate_refine_iff threshold _).mp hg
      rw [pipelinePass_iteration, pipelinePass_max_iterations] at hrf
      have hf1 : 1 ≤ f := by omega
      have hrec := ih (increment_iteration (pipelinePass nodes s)) hf1 (by
        simp only [increment_iteration, pipelinePass_iteration,
          pipelinePass_max_iterations]
        omega)
      obtain ⟨r, n, hrun, hn1, hiter, hbound, hmaxeq, hq, hacc⟩ := hrec
      refine ⟨r, n + 1, ?_, by omega, ?_, ?_, ?_, ?_, hacc⟩
      · simp only [graphRun, hg, if_true, hrun]
      · simp only [increment_iteration, pipelinePass_iteration] at hiter
        omega
      · simp only [increment_iteration, pipelinePass_iteration,
          pipelinePass_max_iterations] at hbound
        right
        omega
      · simpa [increment_iteration, pipelinePass_max_iterations] using hmaxeq
      · simpa [increment_iteration, pipelinePass_original_query] using hq
    · refine ⟨pipelinePass nodes s, 1, ?_, le_refl 1, ?_, Or.inl rfl, ?_, ?_, ?_⟩
      · simp only [graphRun, hg, if_false]
      · rw [pipelinePass_iteration]
      · exact pipelinePass_max_iterations nodes s
      · exact pipelinePass_original_query nodes s
      · exact quality_gate_accept_of_ne_refine threshold _ hg

/-- The fuel is irrelevant once the loop returns: any larger fuel gives the
same result. -/
lemma graphRun_fuel_mono (nodes : PipelineNodes) (threshold : ℚ) :
    ∀ fuel fuel' s x, graphRun nodes threshold fuel s = some x → fuel ≤ fuel' →
      graphRun nodes threshold fuel' s = some x := by
  intro fuel
  induction fuel with
  | zero => intro fuel' s x hx; simp [graphRun] at hx
  | succ f ih =>
    intro fuel' s x hx hle
    obtain ⟨f', rfl⟩ : ∃ f', fuel' = f' + 1 := ⟨fuel' - 1, by omega⟩
    simp only [graphRun] at hx ⊢
    by_cases hg : quality_gate threshold (pipelinePass nodes s) = "refine"
    · simp only [hg, if_true] at hx ⊢
      cases hrec : graphRun nodes threshold f (increment_iteration (pipelinePass nodes s)) with
      | none => rw [hrec] at hx; exact absurd hx (by simp)
      | some y =>
        rw [hrec] at hx
        rw [ih f' _ y hrec (by omega)]
        exact hx
    · simp only [hg, if_false] at hx ⊢
      exact hx

lemma increment_iteration_iteration (s : ResearchState) :
    (increment_iteration s).iteration = s.iteration + 1 := rfl

lemma increment_iteration_max (s : ResearchState) :
    (increment_iteration s).max_iterations = s.max_iterations := rfl

/-- If every pass yields a score below the threshold, the loop refines at
every opportunity: with fuel exactly `max_iterations - iteration` it runs
exactly that many passes and ends at `iteration = max_iterations - 1`. -/
lemma graphRun_low (nodes : PipelineNodes) (threshold : ℚ)
    (hlow : ∀ s, (pipelinePass nodes s).quality_score < threshold) :
    ∀ fuel s, 1 ≤ fuel → s.max_iterations = s.iteration + fuel →
    ∃ r, graphRun nodes threshold fuel s = some (r, fuel)
      ∧ r.iteration + 1 = s.max_iterations
      ∧ quality_gate threshold r = "accept" := by
  intro fuel
  induction fuel with
  | zero => intro s h1 _; omega
  | succ f ih =>
    intro s _ hmax
    by_cases hf : f = 0
    · subst hf
      have hacc : quality_gate threshold (pipelinePass nodes s) = "accept" := by
        rw [quality_gate_accept_iff]
        right
        rw [pipelinePass_iteration, pipelinePass_max_iterations]
        omega
      have hnr : quality_gate threshold (pipelinePass nodes s) ≠ "refine" := by
        rw [hacc]; decide
      refine ⟨pipelinePass nodes s, ?_, ?_, hacc⟩
      · simp only [graphRun, hnr, if_false]
      · rw [pipelinePass_iteration]; omega
    · have hg : quality_gate threshold (pipelinePass nodes s) = "refine" := by
        rw [quality_gate_refine_iff]
        refine ⟨hlow s, ?_⟩
        rw [pipelinePass_iteration, pipelinePass_max_iterations]
        omega
      obtain ⟨r, hrun, hiter, hacc⟩ :=
        ih (increment_iteration (pipelinePass nodes s)) (by omega) (by
          rw [increment_iteration_iteration, increment_iteration_max,
            pipelinePass_iteration, pipelinePass_max_iterations]
          omega)
      refine ⟨r, ?_, ?_, hacc⟩
      · simp only [graphRun, hg, if_true, hrun]
      · rw [increment_iteration_max, pipelinePass_max_iterations] at hiter
        exact hiter

/-! ### Lemmas about the retriever's deduplication and categorization -/

lemma updateAt_map_url :
    ∀ (l : List SourceDocument) (n : Nat) (st : String),
      (RetrieverAgent.updateAt l n st).map (fun s => s.url) = l.map (fun s => s.url) := by
  intro l
  induction l with
  | nil => intro n st; rfl
  | cons s rest ih =>
    intro n st
    cases n with
    | zero => rfl
    | succ m => simp [RetrieverAgent.updateAt, ih]

lemma setSourceType_map_url (l : List SourceDocument) (idx : Int) (st : String) :
    (RetrieverAgent.setSourceType l idx st).map (fun s => s.url) =
      l.map (fun s => s.url) := by
  unfold RetrieverAgent.setSourceType
  split_ifs with h
  · exact updateAt_map_url l idx.toNat st
  · rfl

lemma foldl_setSourceType_map_url :
    ∀ (items : List CategorizedItem) (l : List SourceDocument),
      ((items.foldl (fun srcs item =>
          RetrieverAgent.setSourceType srcs item.index item.source_type) l).map
        (fun s => s.url)) = l.map (fun s => s.url) := by
  intro items
  induction items with
  | nil => intro l; rfl
  | cons it rest ih =>
    intro l
    rw [List.foldl_cons, ih, setSourceType_map_url]

/-- Source: `_categorize_sources` only rewrites `source_type` fields: the url
sequence is unchanged on both the LLM and the fallback path. -/
lemma categorize_sources_map_url (llm : Except String (List CategorizedItem))
    (l : List SourceDocument) :
    (RetrieverAgent.categorize_sources llm l).map (fun s => s.url) =
      l.map (fun s => s.url) := by
  cases llm with
  | ok items => exact foldl_setSourceType_map_url items l
  | error e =>
    unfold RetrieverAgent.categorize_sources
    rw [List.map_map]
    exact List.map_congr_left (fun a _ => rfl)

/-- Invariant of the inner dedup loop: the url set keeps covering `urls0`
and the accumulated sources, the accumulated urls stay pairwise distinct,
and none of them lies in `urls0`. -/
lemma dedupInto_inv (urls0 : List String) :
    ∀ (results : List SourceDocument) (urls : List String) (acc : List SourceDocument),
      (∀ u ∈ urls0, u ∈ urls) →
      (∀ s ∈ acc, s.url ∈ urls) →
      (acc.map (fun s => s.url)).Nodup →
      (∀ s ∈ acc, s.url ∉ urls0) →
      (∀ u ∈ urls0, u ∈ (RetrieverAgent.dedupInto results urls acc).1)
      ∧ (∀ s ∈ (RetrieverAgent.dedupInto results urls acc).2,
          s.url ∈ (RetrieverAgent.dedupInto results urls acc).1)
      ∧ ((RetrieverAgent.dedupInto results urls acc).2.map (fun s => s.url)).Nodup
      ∧ (∀ s ∈ (RetrieverAgent.dedupInto results urls acc).2, s.url ∉ urls0) := by
  intro results
  induction results with
  | nil => intro urls acc h0 h1 h2 h3; exact ⟨h0, h1, h2, h3⟩
  | cons src rest ih =>
    intro urls acc h0 h1 h2 h3
    by_cases hm : src.url ∈ urls
    · simpa [RetrieverAgent.dedupInto, hm] using ih urls acc h0 h1 h2 h3
    · have h0' : ∀ u ∈ urls0, u ∈ src.url :: urls :=
        fun u hu => List.mem_cons_of_mem _ (h0 u hu)
      have h1' : ∀ s ∈ acc ++ [src], s.url ∈ src.url :: urls := by
        intro s hs
        rcases List.mem_append.mp hs with h | h
        · exact List.mem_cons_of_mem _ (h1 s h)
        · rw [List.mem_singleton] at h
          subst h
          exact List.mem_cons_self _ _
      have hnotin : src.url ∉ acc.map (fun s => s.url) := by
        intro hc
        obtain ⟨s, hs, he⟩ := List.mem_map.mp hc
        exact hm (he ▸ h1 s hs)
      have h2' : ((acc ++ [src]).map (fun s => s.url)).Nodup := by
        rw [List.map_append]
        exact List.Nodup.append h2 (List.nodup_singleton _)
          (List.disjoint_singleton.mpr hnotin)
      have h3' : ∀ s ∈ acc ++ [src], s.url ∉ urls0 := by
        intro s hs
        rcases List.mem_append.mp hs with h | h
        · exact h3 s h
        · rw [List.mem_singleton] at h
          subst h
          exact fun hc => hm (h0 _ hc)
      simpa [RetrieverAgent.dedupInto, hm] using ih _ _ h0' h1' h2' h3'

/-- The dedup invariant is preserved across the per-query search loop. -/
lemma collectSources_inv (urls0 : List String)
    (search : String → Except String (List SourceDocument)) :
    ∀ (qs : List String) (urls : List String) (acc : List SourceDocument),
      (∀ u ∈ urls0, u ∈ urls) →
      (∀ s ∈ acc, s.url ∈ urls) →
      (acc.map (fun s => s.url)).Nodup →
      (∀ s ∈ acc, s.url ∉ urls0) →
      ((RetrieverAgent.collectSources search qs urls acc).2.map (fun s => s.url)).Nodup
      ∧ (∀ s ∈ (RetrieverAgent.collectSources search qs urls acc).2, s.url ∉ urls0) := by
  intro qs
  induction qs with
  | nil => intro urls acc _ _ h2 h3; exact ⟨h2, h3⟩
  | cons q rest ih =>
    intro urls acc h0 h1 h2 h3
    cases hq : search q with
    | error e =>
      simpa [RetrieverAgent.collectSources, hq] using ih urls acc h0 h1 h2 h3
    | ok results =>
      have hd := dedupInto_inv urls0 results urls acc h0 h1 h2 h3
      simpa [RetrieverAgent.collectSources, hq] using
        ih _ _ hd.1 hd.2.1 hd.2.2.1 hd.2.2.2

/-- Source: `RetrieverAgent.run` appends to the existing sources a block of new
sources with pairwise distinct urls, all absent from the existing urls. -/
lemma retriever_run_spec (search : String → Except String (List SourceDocument))
    (categorizer : Except String (List CategorizedItem)) (state : ResearchState) :
    ∃ newSources,
      (RetrieverAgent.run search categorizer state).sources =
        state.sources ++ newSources
      ∧ (newSources.map (fun s => s.url)).Nodup
      ∧ ∀ s ∈ newSources, s.url ∉ state.sources.map (fun s => s.url) := by
  have hc := collectSources_inv (state.sources.map (fun s => s.url)) search
    state.sub_queries (state.sources.map (fun s => s.url)) []
    (fun u hu => hu) (by simp) (by simp) (by simp)
  unfold RetrieverAgent.run
  dsimp only
  by_cases he :
      (RetrieverAgent.collectSources search state.sub_queries
        (state.sources.map (fun s => s.url)) []).2.isEmpty
  · rw [if_pos he]
    exact ⟨_, rfl, hc.1, hc.2⟩
  · rw [if_neg he]
    refine ⟨_, rfl, ?_, ?_⟩
    · rw [categorize_sources_map_url]
      exact hc.1
    · intro s hs hmem
      have : s.url ∈ (RetrieverAgent.categorize_sources categorizer
          (RetrieverAgent.collectSources search state.sub_queries
            (state.sources.map (fun s => s.url)) []).2).map (fun s => s.url) :=
        List.mem_map.mpr ⟨s, hs, rfl⟩
      rw [categorize_sources_map_url] at this
      obtain ⟨s', hs', he'⟩ := List.mem_map.mp this
      exact hc.2 s' hs' (he' ▸ hmem)


/-! ### Lemmas about the JSON extraction -/

lemma extractDelim_head (openC closeC : Char) (cs : List Char) (sub : List Char)
    (h : LLMClient.extractDelim openC closeC cs = some sub) : sub.head? = some openC := by
  unfold LLMClient.extractDelim at h
  cases hi : cs.findIdx? (fun c => c == openC) with
  | none => rw [hi] at h; exact absurd h (by simp)
  | some i =>
    cases hj : cs.reverse.findIdx? (fun c => c == closeC) with
    | none => rw [hi, hj] at h; exact absurd h (by simp)
    | some jr =>
      rw [hi, hj] at h
      dsimp only at h
      by_cases hij : i < cs.length - 1 - jr
      · rw [if_pos hij] at h
        injection h with h
        subst h
        rw [List.head?_take, if_neg (by omega), List.head?_drop]
        have hfi := (List.findIdx?_eq_some_iff_findIdx_eq).mp hi
        have hlt : i < cs.length := hfi.1
        have hw : List.findIdx (fun c => c == openC) cs < cs.length := by
          rw [hfi.2]; exact hlt
        have hp := @List.findIdx_getElem _ (fun c => c == openC) cs hw
        simp only [hfi.2] at hp
        rw [List.getElem?_eq_getElem hlt]
        simpa using hp
      · rw [if_neg hij] at h
        exact absurd h (by simp)

lemma loadsKind_obj_of_head (s : String) (k : LLMClient.JKind)
    (hh : s.toList.head? = some '\x7b')
    (h : LLMClient.loadsKind s = some k) : k = LLMClient.JKind.obj := by
  obtain ⟨cs, hcs⟩ : ∃ cs, s.toList = '\x7b' :: cs := by
    cases hl : s.toList with
    | nil => rw [hl] at hh; cases hh
    | cons a l =>
      rw [hl] at hh
      injection hh with hh
      exact ⟨l, by rw [hh]⟩
  unfold LLMClient.loadsKind at h
  rw [hcs] at h
  have hskip : LLMClient.skipWs ('\x7b' :: cs) = '\x7b' :: cs := by
    unfold LLMClient.skipWs
    rw [List.dropWhile_cons, if_neg (by decide)]
  dsimp only at h
  rw [hskip] at h
  cases hp : LLMClient.parseJ (8 * (('\x7b' :: cs).length + 1)) LLMClient.PMode.value
      ('\x7b' :: cs) with
  | none => rw [hp] at h; exact absurd h (by simp)
  | some rest =>
    rw [hp] at h
    dsimp only at h
    split at h
    · injection h with h
      exact h.symm
    · exact absurd h (by simp)

/-- Steps 3-4 succeed exactly when one of the two extracted substrings
parses, and an unwrapped (`raw`) result can only be an object: the
brace-extracted substring starts with a brace. -/
lemma parseExtracted_spec (cleaned : List Char) :
    ((LLMClient.parseExtracted cleaned).isSome =
      ((match LLMClient.extractDelim '\x7b' '\x7d' cleaned with
        | some sub => (LLMClient.loadsKind (String.mk sub)).isSome
        | none => false)
      || (match LLMClient.extractDelim '[' ']' cleaned with
          | some sub => (LLMClient.loadsKind (String.mk sub)).isSome
          | none => false)))
    ∧ (∀ k, LLMClient.parseExtracted cleaned = some (LLMClient.ParsedReturn.raw k) →
        k = LLMClient.JKind.obj) := by
  unfold LLMClient.parseExtracted
  dsimp only
  cases h3 : LLMClient.extractDelim '\x7b' '\x7d' cleaned with
  | some sub =>
    cases h4 : LLMClient.loadsKind (String.mk sub) with
    | some k3 =>
      refine ⟨by simp [h3, h4], ?_⟩
      intro k hk
      simp only [h3, h4, Option.some.injEq, LLMClient.ParsedReturn.raw.injEq] at hk
      rw [← hk]
      exact loadsKind_obj_of_head (String.mk sub) k3
        (extractDelim_head '\x7b' '\x7d' cleaned sub h3) h4
    | none =>
      cases h5 : LLMClient.extractDelim '[' ']' cleaned with
      | some sub2 =>
        cases h6 : LLMClient.loadsKind (String.mk sub2) with
        | some k4 =>
          exact ⟨by simp [h3, h4, h5, h6], fun k hk => by simp [h3, h4, h5, h6] at hk⟩
        | none =>
          exact ⟨by simp [h3, h4, h5, h6], fun k hk => by simp [h3, h4, h5, h6] at hk⟩
      | none =>
        exact ⟨by simp [h3, h4, h5], fun k hk => by simp [h3, h4, h5] at hk⟩
  | none =>
    cases h5 : LLMClient.extractDelim '[' ']' cleaned with
    | some sub2 =>
      cases h6 : LLMClient.loadsKind (String.mk sub2) with
      | some k4 =>
        exact ⟨by simp [h3, h5, h6], fun k hk => by simp [h3, h5, h6] at hk⟩
      | none =>
        exact ⟨by simp [h3, h5, h6], fun k hk => by simp [h3, h5, h6] at hk⟩
    | none =>
      exact ⟨by simp [h3, h5], fun k hk => by simp [h3, h5] at hk⟩

end Group2

/-- C1: the quality gate returns "accept" exactly when the score reaches the
threshold or the next iteration would reach the ceiling, "refine" otherwise;
in particular it decides accept/refine/accept on the three table rows
(score 70, iter 0), (score 40, iter 0), (score 40, iter 2) at threshold 65,
max 3. -/
theorem Group2.C1_quality_gate_decision (threshold : ℚ) (s : Group2.ResearchState) :
    (Group2.quality_gate threshold s = "accept" ↔
      threshold ≤ s.quality_score ∨ s.max_iterations ≤ s.iteration + 1)
    ∧ (Group2.quality_gate threshold s = "refine" ↔
      s.quality_score < threshold ∧ s.iteration + 1 < s.max_iterations)
    ∧ Group2.quality_gate 65 { quality_score := 70, iteration := 0, max_iterations := 3 } = "accept"
    ∧ Group2.quality_gate 65 { quality_score := 40, iteration := 0, max_iterations := 3 } = "refine"
    ∧ Group2.quality_gate 65 { quality_score := 40, iteration := 2, max_iterations := 3 } = "accept" := by
  refine ⟨?_, ?_, by decide, by decide, by decide⟩ <;>
    · unfold Group2.quality_gate
      dsimp only
      split_ifs with h1 h2 <;>
        simp_all [ge_iff_le, not_le]

/-- C2: for every `max_iterations = N ≥ 1`, one engine run executes at most
`N` pipeline passes before returning, for every possible behaviour of the
six stages (hence regardless of scores and of how many stages degrade); the
result does not depend on any larger fuel, so the refine back-edge is taken
at most `N - 1` times. -/
theorem Group2.C2_engine_terminates (nodes : Group2.PipelineNodes)
    (threshold : ℚ) (query : String) (N : Nat) (hN : 1 ≤ N) :
    ∃ r n, Group2.graphRun nodes threshold N (Group2.initial_state query (some N)) = some (r, n)
      ∧ 1 ≤ n ∧ n ≤ N
      ∧ ∀ fuel, N ≤ fuel →
          Group2.graphRun nodes threshold fuel (Group2.initial_state query (some N)) =
            some (r, n) := by
  have hm : (Group2.initial_state query (some N)).max_iterations = N := by
    cases N with
    | zero => omega
    | succ k => rfl
  obtain ⟨r, n, hrun, hn1, _, hbound, _, _, _⟩ :=
    Group2.graphRun_total nodes threshold N (Group2.initial_state query (some N)) hN
      (by rw [hm]; exact Nat.le_add_left N _)
  refine ⟨r, n, hrun, hn1, ?_, fun fuel hf =>
    Group2.graphRun_fuel_mono nodes threshold N fuel _ _ hrun hf⟩
  rcases hbound with h | h
  · omega
  · have : (Group2.initial_state query (some N)).iteration = 0 := rfl
    omega

theorem Group2.C2_witness :
    1 ≤ 2 ∧
    ∃ r n, Group2.graphRun Group2.constNodes 65 2 (Group2.initial_state "q2" (some 2)) = some (r, n)
      ∧ 1 ≤ n ∧ n ≤ 2
      ∧ ∀ fuel, 2 ≤ fuel →
          Group2.graphRun Group2.constNodes 65 fuel (Group2.initial_state "q2" (some 2)) =
            some (r, n) :=
  ⟨by decide, Group2.C2_engine_terminates Group2.constNodes 65 "q2" 2 (by decide)⟩

/-- C3: if every pass scores below the threshold, the engine executes
exactly `max_iterations` passes and returns an accepted state whose
`iteration` equals `max_iterations - 1`. -/
theorem Group2.C3_ceiling_override (nodes : Group2.PipelineNodes)
    (threshold : ℚ) (query : String) (N : Nat) (hN : 1 ≤ N)
    (hlow : ∀ s, (Group2.pipelinePass nodes s).quality_score < threshold) :
    ∃ r, Group2.graphRun nodes threshold N (Group2.initial_state query (some N)) = some (r, N)
      ∧ r.iteration = N - 1
      ∧ Group2.quality_gate threshold r = "accept" := by
  have hm : (Group2.initial_state query (some N)).max_iterations = N := by
    cases N with
    | zero => omega
    | succ k => rfl
  obtain ⟨r, hrun, hiter, hacc⟩ :=
    Group2.graphRun_low nodes threshold hlow N (Group2.initial_state query (some N)) hN
      (by rw [hm]; exact (Nat.zero_add N).symm)
  rw [hm] at hiter
  exact ⟨r, hrun, by omega, hacc⟩

theorem Group2.C3_witness :
    1 ≤ 2
    ∧ (∀ s, (Group2.pipelinePass Group2.constNodes s).quality_score < 65)
    ∧ ∃ r, Group2.graphRun Group2.constNodes 65 2 (Group2.initial_state "q3" (some 2)) = some (r, 2)
      ∧ r.iteration = 2 - 1
      ∧ Group2.quality_gate 65 r = "accept" :=
  have hlow : ∀ s, (Group2.pipelinePass Group2.constNodes s).quality_score < 65 :=
    fun _ => show (40 : ℚ) < 65 by norm_num
  ⟨by decide, hlow, Group2.C3_ceiling_override Group2.constNodes 65 "q3" 2 (by decide) hlow⟩

/-- C4: the iteration counter starts at 0, `increment_iteration` adds
exactly 1 (and is only reached through the gate's "refine" edge, so the
final iteration count is the number of refine decisions, `passes - 1`), and
every engine run returns a state with `iteration ≤ max_iterations` — for
the graph path unconditionally, and for `run_research` as soon as the
invoked graph guarantees it (its exception path re-establishes it with
`iteration = 0`). -/
theorem Group2.C4_iteration_invariant :
    (∀ query mi, (Group2.initial_state query mi).iteration = 0)
    ∧ (∀ s, Group2.increment_iteration s = { s with iteration := s.iteration + 1 })
    ∧ (∀ nodes s, (Group2.pipelinePass nodes s).iteration = s.iteration)
    ∧ (∀ nodes threshold query N, 1 ≤ N →
        ∀ r n, Group2.graphRun nodes threshold N (Group2.initial_state query (some N)) = some (r, n) →
          r.iteration + 1 = n ∧ n ≤ N ∧ r.iteration ≤ r.max_iterations)
    ∧ (∀ query mi invoke,
        (∀ r, invoke (Group2.initial_state query mi) = Except.ok r →
          r.iteration ≤ r.max_iterations) →
        (Group2.run_research query mi invoke).iteration ≤
          (Group2.run_research query mi invoke).max_iterations) := by
  refine ⟨fun _ _ => rfl, fun _ => rfl, fun _ _ => rfl, ?_, ?_⟩
  · intro nodes threshold query N hN r n hrun
    have hm : (Group2.initial_state query (some N)).max_iterations = N := by
      cases N with
      | zero => omega
      | succ k => rfl
    obtain ⟨r', n', hrun', hn1, hiter, hbound, hmaxeq, _, _⟩ :=
      Group2.graphRun_total nodes threshold N (Group2.initial_state query (some N)) hN
        (by rw [hm]; exact Nat.le_add_left N _)
    rw [hrun] at hrun'
    injection hrun' with h2
    cases h2
    have hit0 : (Group2.initial_state query (some N)).iteration = 0 := rfl
    refine ⟨by omega, by omega, ?_⟩
    rw [hmaxeq, hm]
    omega
  · intro query mi invoke hok
    cases hinv : invoke (Group2.initial_state query mi) with
    | ok r =>
      have hr : Group2.run_research query mi invoke = r := by
        simp only [Group2.run_research, hinv]
      rw [hr]
      exact hok r hinv
    | error e =>
      have hr : Group2.run_research query mi invoke =
          { Group2.initial_state query mi with
              status := "Pipeline error: " ++ e, errors := [e] } := by
        simp only [Group2.run_research, hinv]
      rw [hr]
      exact Nat.zero_le _

theorem Group2.C4_witness :
    (Group2.initial_state "q4" none).iteration = 0
    ∧ 1 ≤ 2
    ∧ (∃ r n, Group2.graphRun Group2.constNodes 65 2 (Group2.initial_state "q4" (some 2)) = some (r, n)
        ∧ r.iteration + 1 = n ∧ n ≤ 2 ∧ r.iteration ≤ r.max_iterations)
    ∧ (Group2.run_research "q4" none (fun _ => Except.error "boom")).iteration ≤
        (Group2.run_research "q4" none (fun _ => Except.error "boom")).max_iterations := by
  obtain ⟨r, n, hrun, _, _, _, _, _, _⟩ :=
    Group2.graphRun_total Group2.constNodes 65 2 (Group2.initial_state "q4" (some 2))
      (by decide) (by decide)
  refine ⟨rfl, by decide, ⟨r, n, hrun,
    Group2.C4_iteration_invariant.2.2.2.1 Group2.constNodes 65 "q4" 2 (by decide) r n hrun⟩, ?_⟩
  exact Group2.C4_iteration_invariant.2.2.2.2 "q4" none (fun _ => Except.error "boom")
    (fun r hr => by simp at hr)

/-- C9: `run_research` never re-raises: when the graph invocation fails with
any exception message, it returns the initial (best captured) state with the
message recorded in `status` and appended to `errors`; when the graph
returns (even fully degraded), its state is returned as-is rather than an
exception being raised. -/
theorem Group2.C9_run_research_no_raise (query : String) (mi : Option Nat)
    (invoke : Group2.ResearchState → Except String Group2.ResearchState) :
    (∀ e, invoke (Group2.initial_state query mi) = Except.error e →
      Group2.run_research query mi invoke =
        { Group2.initial_state query mi with
            status := "Pipeline error: " ++ e,
            errors := (Group2.initial_state query mi).errors ++ [e] })
    ∧ (∀ r, invoke (Group2.initial_state query mi) = Except.ok r →
        Group2.run_research query mi invoke = r) := by
  constructor
  · intro e he
    simp only [Group2.run_research, he]
    rfl
  · intro r hr
    simp only [Group2.run_research, hr]

theorem Group2.C9_witness :
    ((fun _ : Group2.ResearchState =>
        (Except.error "auth failure" : Except String Group2.ResearchState))
      (Group2.initial_state "q9" none) = Except.error "auth failure")
    ∧ Group2.run_research "q9" none (fun _ => Except.error "auth failure") =
        { Group2.initial_state "q9" none with
            status := "Pipeline error: " ++ "auth failure",
            errors := (Group2.initial_state "q9" none).errors ++ ["auth failure"] } :=
  ⟨rfl, (Group2.C9_run_research_no_raise "q9" none _).1 "auth failure" rfl⟩

/-- C5: the retriever's update sets `sources` to the existing list with the
new (deduplicated, categorized) sources appended after it, so previously
collected sources are preserved in order and the length never decreases
across passes. -/
theorem Group2.C5_sources_accumulate
    (search : String → Except String (List Group2.SourceDocument))
    (categorizer : Except String (List Group2.CategorizedItem))
    (state : Group2.ResearchState) :
    ∃ newSources,
      (Group2.RetrieverAgent.run search categorizer state).sources =
        state.sources ++ newSources
      ∧ (Group2.RetrieverAgent.run search categorizer state).sources.take
          state.sources.length = state.sources
      ∧ state.sources.length ≤
          (Group2.RetrieverAgent.run search categorizer state).sources.length := by
  obtain ⟨new, happ, _, _⟩ := Group2.retriever_run_spec search categorizer state
  refine ⟨new, happ, ?_, ?_⟩
  · rw [happ, List.take_left]
  · rw [happ, List.length_append]
    exact Nat.le_add_right _ _

/-- C6: the new sources appended by the retriever have pairwise distinct
urls, none of which occurs among the urls already present in the state;
consequently if the accumulated url list was duplicate-free before the pass
(as it is from the empty start), it stays duplicate-free after it. -/
theorem Group2.C6_url_dedup
    (search : String → Except String (List Group2.SourceDocument))
    (categorizer : Except String (List Group2.CategorizedItem))
    (state : Group2.ResearchState) :
    ∃ newSources,
      (Group2.RetrieverAgent.run search categorizer state).sources =
        state.sources ++ newSources
      ∧ (newSources.map (fun s => s.url)).Nodup
      ∧ (∀ s ∈ newSources, s.url ∉ state.sources.map (fun s => s.url))
      ∧ ((state.sources.map (fun s => s.url)).Nodup →
          ((Group2.RetrieverAgent.run search categorizer state).sources.map
            (fun s => s.url)).Nodup) := by
  obtain ⟨new, happ, hnd, hfresh⟩ := Group2.retriever_run_spec search categorizer state
  refine ⟨new, happ, hnd, hfresh, fun h0 => ?_⟩
  rw [happ, List.map_append]
  refine List.Nodup.append h0 hnd ?_
  intro a ha hb
  obtain ⟨s, hs, he⟩ := List.mem_map.mp hb
  exact hfresh s hs (he ▸ ha)

theorem Group2.C6_witness :
    ∃ newSources,
      (Group2.RetrieverAgent.run (fun _ => Except.error "net down") (Except.error "llm down")
        { sub_queries := ["a"] }).sources = ({} : Group2.ResearchState).sources ++ newSources
      ∧ (newSources.map (fun s => s.url)).Nodup
      ∧ (∀ s ∈ newSources, s.url ∉
          ({} : Group2.ResearchState).sources.map (fun s => s.url))
      ∧ (((({} : Group2.ResearchState).sources.map (fun s => s.url))).Nodup →
          ((Group2.RetrieverAgent.run (fun _ => Except.error "net down")
            (Except.error "llm down") { sub_queries := ["a"] }).sources.map
              (fun s => s.url)).Nodup) :=
  Group2.C6_url_dedup (fun _ => Except.error "net down") (Except.error "llm down")
    { sub_queries := ["a"] }

/-- C7: on a failed capability call the decomposer stage returns the
original query as the only sub-query and the fact-checker stage marks every
finding unverified at confidence 50 with overall reliability 40; both
append exactly one new entry to the state's error log (so `errors` grows by
at least one entry per failing stage per pass), and neither raises. -/
theorem Group2.C7_degraded_updates (e : String) (state : Group2.ResearchState)
    (hfind : state.analysis.findings ≠ []) :
    (Group2.DecomposerAgent.run (Except.error e) state).sub_queries =
      [state.original_query]
    ∧ (Group2.DecomposerAgent.run (Except.error e) state).errors =
        some (state.errors ++ ["Decomposer: " ++ e])
    ∧ (Group2.FactCheckerAgent.run (Except.error e) state).fact_check.verified_claims =
        state.analysis.findings.map Group2.FactCheckerAgent.fallback_claim
    ∧ (∀ c ∈ (Group2.FactCheckerAgent.run (Except.error e) state).fact_check.verified_claims,
        c.status = "unverified" ∧ c.confidence_score = 50)
    ∧ (Group2.FactCheckerAgent.run (Except.error e) state).fact_check.verified_claims.length
        = state.analysis.findings.length
    ∧ (Group2.FactCheckerAgent.run (Except.error e) state).fact_check.overall_reliability_score
        = 40
    ∧ (Group2.FactCheckerAgent.run (Except.error e) state).errors =
        some (state.errors ++ ["FactChecker: " ++ e]) := by
  have hne : state.analysis.findings.isEmpty = false :=
    List.isEmpty_eq_false.mpr hfind
  refine ⟨rfl, rfl, ?_, ?_, ?_, ?_, ?_⟩ <;>
    simp only [Group2.FactCheckerAgent.run, hne, Bool.false_eq_true, if_false]
  · intro c hc
    obtain ⟨f, _, rfl⟩ := List.mem_map.mp hc
    exact ⟨rfl, rfl⟩
  · exact List.length_map _ _

theorem Group2.C7_witness :
    Group2.sampleFindingState.analysis.findings ≠ []
    ∧ (Group2.DecomposerAgent.run (Except.error "timeout")
        Group2.sampleFindingState).sub_queries =
          [Group2.sampleFindingState.original_query]
    ∧ (Group2.FactCheckerAgent.run (Except.error "timeout")
        Group2.sampleFindingState).fact_check.overall_reliability_score = 40 :=
  have h := Group2.C7_degraded_updates "timeout" Group2.sampleFindingState (by decide)
  ⟨by decide, h.1, h.2.2.2.2.2.1⟩

/-- C10: whatever the LLM returns (or fails to return), the decomposer's
update carries a non-empty `sub_queries` list of length at most
`MAX_SUB_QUERIES`: the LLM list is truncated, an empty list is replaced by
the original query, and the failure fallback is the original query alone. -/
theorem Group2.C10_sub_queries_bounds (llm : Except String (Option (List String)))
    (state : Group2.ResearchState) :
    (Group2.DecomposerAgent.run llm state).sub_queries ≠ []
    ∧ (Group2.DecomposerAgent.run llm state).sub_queries.length ≤
        Group2.MAX_SUB_QUERIES := by
  cases llm with
  | error e =>
    constructor
    · simp [Group2.DecomposerAgent.run]
    · simp [Group2.DecomposerAgent.run, Group2.MAX_SUB_QUERIES]
  | ok result =>
    simp only [Group2.DecomposerAgent.run]
    generalize result.getD [state.original_query] = l
    by_cases hlong : Group2.MAX_SUB_QUERIES < l.length
    · rw [if_pos hlong]
      have h5 : (l.take Group2.MAX_SUB_QUERIES).length = Group2.MAX_SUB_QUERIES := by
        rw [List.length_take]
        omega
      have hne : (l.take Group2.MAX_SUB_QUERIES).isEmpty = false := by
        apply List.isEmpty_eq_false.mpr
        intro hc
        rw [hc] at h5
        exact absurd h5.symm (by decide)
      rw [hne]
      simp only [Bool.false_eq_true, if_false]
      exact ⟨List.isEmpty_eq_false.mp hne, le_of_eq h5⟩
    · rw [if_neg hlong]
      by_cases hemp : l.isEmpty = true
      · rw [if_pos hemp]
        exact ⟨by simp, by simp [Group2.MAX_SUB_QUERIES]⟩
      · rw [if_neg hemp]
        refine ⟨fun hc => hemp ?_, by omega⟩
        rw [hc]
        rfl


/-- C8 (amended): `_parse_json` returns a dict exactly when a JSON value
can be recovered by direct parse or fence-stripped parse (a non-object
top-level value being wrapped under an `items` key rather than rejected),
or a JSON object (resp. array) can be parsed out of the first-to-last
brace (resp. bracket) substring; it raises `ValueError` exactly otherwise.
Whenever the returned dict is the parsed value itself, that value is an
object. -/
theorem Group2.C8_parse_json_amended (text : String) :
    ((Group2.LLMClient.parse_json text).isSome =
      Group2.LLMClient.jsonRecoverable text)
    ∧ (∀ k, Group2.LLMClient.parse_json text =
        some (Group2.LLMClient.ParsedReturn.raw k) →
        k = Group2.LLMClient.JKind.obj) := by
  unfold Group2.LLMClient.parse_json Group2.LLMClient.jsonRecoverable
  dsimp only
  cases h1 : Group2.LLMClient.loadsKind (Group2.LLMClient.pyStrip text) with
  | some k1 =>
    refine ⟨by simp [h1], ?_⟩
    intro k hk
    simp only [h1, Option.some.injEq] at hk
    cases k1 <;> simp_all [Group2.LLMClient.wrapResult]
  | none =>
    cases h2 : Group2.LLMClient.loadsKind (Group2.LLMClient.pyStrip (String.mk
        (Group2.LLMClient.stripFences (Group2.LLMClient.pyStrip text).toList.length
          (Group2.LLMClient.pyStrip text).toList))) with
    | some k2 =>
      refine ⟨by simp [h1, h2], ?_⟩
      intro k hk
      simp only [h1, h2, Option.some.injEq] at hk
      cases k2 <;> simp_all [Group2.LLMClient.wrapResult]
    | none =>
      have hext := Group2.parseExtracted_spec (Group2.LLMClient.pyStrip (String.mk
        (Group2.LLMClient.stripFences (Group2.LLMClient.pyStrip text).toList.length
          (Group2.LLMClient.pyStrip text).toList))).toList
      constructor
      · simp only [h1, h2, Option.isSome_none, Bool.false_or]
        exact hext.1
      · intro k hk
        simp only [h1, h2] at hk
        exact hext.2 k hk

theorem Group2.C8_witness :
    ((Group2.LLMClient.parse_json "\x7b\x7d").isSome =
      Group2.LLMClient.jsonRecoverable "\x7b\x7d")
    ∧ (∀ k, Group2.LLMClient.parse_json "\x7b\x7d" =
        some (Group2.LLMClient.ParsedReturn.raw k) →
        k = Group2.LLMClient.JKind.obj) :=
  Group2.C8_parse_json_amended "\x7b\x7d"

/-- C8 counterexample to the claim as stated: on the input `42` no JSON
object or array can be recovered by any of the four strategies (the direct
parse yields a scalar, and there is no brace or bracket to extract), yet
`_parse_json` does not raise: it returns the dict `\x7b"items": 42\x7d`. -/
theorem Group2.C8_counterexample :
    Group2.LLMClient.parse_json "42" =
      some (Group2.LLMClient.ParsedReturn.items Group2.LLMClient.JKind.other)
    ∧ Group2.LLMClient.objArrRecoverable "42" = false := by
  decide
